import Mathlib

/-!
Verification of `src/halting.py`: a pedagogical halting-problem sketch
consisting of an unimplemented predictor `will_freeze` (body `pass`, so it
returns Python's None) and a counter-example function `opposite` that invokes
the predictor on its argument applied to itself and then either returns
`False` or loops forever printing a fixed line.

We embed the Python values that occur (None, booleans), Python truthiness as
used by the `if` in `opposite`, the shipped `will_freeze` stub, and the
execution of `opposite` as a small-step machine over a control state, with an
event trace recording predictor invocations and printed output. `opposite`
is parameterised by the predictor `wf` so that statements about every
candidate implementation of the predictor can be expressed.
-/

/-- Python values occurring in halting.py: None (the implicit result of the
stub body consisting only of a pass statement) and booleans. -/
inductive PyVal where
  | none : PyVal
  | bool : Bool → PyVal
  deriving DecidableEq

/-- Python truthiness of those values: None is falsy, a bool is itself. This
is how the guard of the conditional in `opposite` reads its scrutinee. -/
def truthy : PyVal → Bool
  | PyVal.none => false
  | PyVal.bool b => b

/-- Embedding of `will_freeze` as shipped: the body is a single pass
statement, so every call returns Python's None regardless of the declared
bool return annotation, and the arguments are never used. -/
def will_freeze {α β : Type} (f : α) (x : β) : PyVal :=
  PyVal.none

/-- The line printed by the body of the while loop in `opposite`. -/
def loopMsg : String :=
  "Infinite loop"

/-- Observable events of a run of `opposite`: an invocation of the predictor
(recording both arguments and the returned value) or a line printed to
stdout. -/
inductive Event (α : Type) where
  | call : α → α → PyVal → Event α
  | line : String → Event α
  deriving DecidableEq

/-- Control state of an execution of `opposite f`: about to evaluate the
conditional guard, inside the while loop, or returned with a value. -/
inductive OppState (α : Type) where
  | start : α → OppState α
  | loop : OppState α
  | done : PyVal → OppState α
  deriving DecidableEq

/-- One small step of `opposite` under predictor `wf`, with the events it
emits: from the start state, `wf f f` is invoked once and the branch is
chosen by the truthiness of its result (returning False, or entering the
loop); the loop body prints the fixed line and repeats; a returned state is
final and emits nothing. -/
def oppStep {α : Type} (wf : α → α → PyVal) : OppState α → OppState α × List (Event α)
  | OppState.start f =>
      if truthy (wf f f) then
        (OppState.done (PyVal.bool false), [Event.call f f (wf f f)])
      else
        (OppState.loop, [Event.call f f (wf f f)])
  | OppState.loop => (OppState.loop, [Event.line loopMsg])
  | OppState.done v => (OppState.done v, [])

/-- The control state of `opposite f` under predictor `wf` after `n` small
steps. -/
def oppRun {α : Type} (wf : α → α → PyVal) (f : α) : Nat → OppState α
  | 0 => OppState.start f
  | n + 1 => (oppStep wf (oppRun wf f n)).1

/-- The events emitted by the first `n` small steps of `opposite f` under
predictor `wf`, in order. -/
def oppTrace {α : Type} (wf : α → α → PyVal) (f : α) : Nat → List (Event α)
  | 0 => []
  | n + 1 => oppTrace wf f n ++ (oppStep wf (oppRun wf f n)).2

/-- Termination of `opposite f` under predictor `wf`: some finite number of
steps reaches a returned state. -/
def oppHalts {α : Type} (wf : α → α → PyVal) (f : α) : Prop :=
  ∃ n v, oppRun wf f n = OppState.done v

/-- The predictor invocations recorded in a list of events, as pairs of a
function argument and an input argument. -/
def callsOf {α : Type} : List (Event α) → List (α × α)
  | [] => []
  | Event.call f x _ :: es => (f, x) :: callsOf es
  | Event.line _ :: es => callsOf es

/-- The contract of `will_freeze`: its truthy answer on a pair is True
exactly when running that function on that input would not terminate, where
termination of the functions of the ambient space is given by `halts`. -/
def CorrectPredictor {α : Type} (wf : α → α → PyVal) (halts : α → α → Prop) : Prop :=
  ∀ f x, truthy (wf f x) = true ↔ ¬ halts f x

/-! ### Basic run lemmas -/

lemma oppRun_true_done {α : Type} (wf : α → α → PyVal) (f : α)
    (h : truthy (wf f f) = true) :
    ∀ n, oppRun wf f (n + 1) = OppState.done (PyVal.bool false) := by
  intro n
  induction n with
  | zero => simp [oppRun, oppStep, h]
  | succ m ih =>
      show (oppStep wf (oppRun wf f (m + 1))).1 = _
      rw [ih]
      rfl

lemma oppRun_false_loop {α : Type} (wf : α → α → PyVal) (f : α)
    (h : truthy (wf f f) = false) :
    ∀ n, oppRun wf f (n + 1) = OppState.loop := by
  intro n
  induction n with
  | zero => simp [oppRun, oppStep, h]
  | succ m ih =>
      show (oppStep wf (oppRun wf f (m + 1))).1 = _
      rw [ih]
      rfl

lemma oppRun_succ_cases {α : Type} (wf : α → α → PyVal) (f : α) (n : Nat) :
    oppRun wf f (n + 1) = OppState.loop ∨
      oppRun wf f (n + 1) = OppState.done (PyVal.bool false) := by
  cases htr : truthy (wf f f) with
  | false => exact Or.inl (oppRun_false_loop wf f htr n)
  | true => exact Or.inr (oppRun_true_done wf f htr n)

lemma oppRun_no_done_of_false {α : Type} (wf : α → α → PyVal) (f : α)
    (h : truthy (wf f f) = false) :
    ∀ n v, oppRun wf f n ≠ OppState.done v := by
  intro n v hn
  cases n with
  | zero => exact OppState.noConfusion hn
  | succ m => rw [oppRun_false_loop wf f h m] at hn; exact OppState.noConfusion hn

lemma oppHalts_iff {α : Type} (wf : α → α → PyVal) (f : α) :
    oppHalts wf f ↔ truthy (wf f f) = true := by
  constructor
  · rintro ⟨n, v, hn⟩
    cases htr : truthy (wf f f) with
    | false => exact absurd hn (oppRun_no_done_of_false wf f htr n v)
    | true => rfl
  · intro h
    exact ⟨1, PyVal.bool false, oppRun_true_done wf f h 0⟩

/-! ### Trace lemmas -/

lemma oppTrace_one {α : Type} (wf : α → α → PyVal) (f : α) :
    oppTrace wf f 1 = [Event.call f f (wf f f)] := by
  show oppTrace wf f 0 ++ (oppStep wf (oppRun wf f 0)).2 = _
  show ([] : List (Event α)) ++ (oppStep wf (OppState.start f)).2 = _
  simp only [List.nil_append, oppStep]
  split <;> rfl

lemma oppTrace_true {α : Type} (wf : α → α → PyVal) (f : α)
    (h : truthy (wf f f) = true) :
    ∀ n, oppTrace wf f (n + 1) = [Event.call f f (wf f f)] := by
  intro n
  induction n with
  | zero => exact oppTrace_one wf f
  | succ m ih =>
      show oppTrace wf f (m + 1) ++ (oppStep wf (oppRun wf f (m + 1))).2 = _
      rw [ih, oppRun_true_done wf f h m]
      simp [oppStep]

lemma oppTrace_false {α : Type} (wf : α → α → PyVal) (f : α)
    (h : truthy (wf f f) = false) :
    ∀ n, oppTrace wf f (n + 1) =
      Event.call f f (wf f f) :: List.replicate n (Event.line loopMsg) := by
  intro n
  induction n with
  | zero => simpa using oppTrace_one wf f
  | succ m ih =>
      show oppTrace wf f (m + 1) ++ (oppStep wf (oppRun wf f (m + 1))).2 = _
      rw [ih, oppRun_false_loop wf f h m, List.replicate_succ']
      simp [oppStep]

lemma callsOf_replicate_line {α : Type} (k : Nat) (s : String) :
    callsOf (α := α) (List.replicate k (Event.line s)) = [] := by
  induction k with
  | zero => rfl
  | succ m ih => simpa [List.replicate_succ, callsOf] using ih

lemma oppRun_det {α : Type} (wf wf' : α → α → PyVal) (f f' : α)
    (h : wf f f = wf' f' f') :
    ∀ m, oppRun wf f (m + 1) = oppRun wf' f' (m + 1) := by
  intro m
  induction m with
  | zero =>
      show (oppStep wf (oppRun wf f 0)).1 = (oppStep wf' (oppRun wf' f' 0)).1
      simp only [oppRun, oppStep, h]
      split <;> rfl
  | succ k ih =>
      show (oppStep wf (oppRun wf f (k + 1))).1 = (oppStep wf' (oppRun wf' f' (k + 1))).1
      rw [← ih]
      rcases oppRun_succ_cases wf f k with hk | hk <;> rw [hk] <;> rfl

/-! ### Claims -/

/-- Claim C1: for every candidate predictor over a function space that
contains the counter-example built over it (an element whose halting
behaviour on any argument is that of the embedded `opposite`), `opposite`
applied to itself terminates exactly when the predictor reports
non-termination for that pair, so the predictor does not correctly report
termination for all functions and inputs. -/
theorem no_halting_predictor {α : Type} (wf : α → α → PyVal) (halts : α → α → Prop)
    (opp : α) (hopp : ∀ g : α, halts opp g ↔ oppHalts wf g) :
    (oppHalts wf opp ↔ truthy (wf opp opp) = true) ∧ ¬ CorrectPredictor wf halts := by
  refine ⟨oppHalts_iff wf opp, fun hc => ?_⟩
  have h1 := hc opp opp
  rw [hopp opp, oppHalts_iff wf opp] at h1
  exact iff_not_self h1

/-- Witness for C1 at a concrete predictor, halting relation and
counter-example element. -/
theorem no_halting_predictor_witness :
    ¬ CorrectPredictor (fun _ _ : Unit => PyVal.bool true) (fun _ _ => True) :=
  (no_halting_predictor (fun _ _ : Unit => PyVal.bool true) (fun _ _ => True) ()
    (fun _ => ⟨fun _ => ⟨1, PyVal.bool false, rfl⟩, fun _ => trivial⟩)).2

/-- Claim C2: if the predictor call on the pair (f, f) reports True, then
`opposite f` terminates immediately: after one step, and forever after, the
run is in the returned state. -/
theorem opposite_halts_of_true {α : Type} (wf : α → α → PyVal) (f : α)
    (h : wf f f = PyVal.bool true) :
    ∀ n, oppRun wf f (n + 1) = OppState.done (PyVal.bool false) :=
  oppRun_true_done wf f (by rw [h]; rfl)

/-- Witness for C2 at a concrete always-True predictor. -/
theorem opposite_halts_of_true_witness :
    oppRun (fun _ _ : Unit => PyVal.bool true) () 1 = OppState.done (PyVal.bool false) :=
  opposite_halts_of_true (fun _ _ => PyVal.bool true) () rfl 0

/-- Claim C3: if the predictor call on the pair (f, f) reports False, then
`opposite f` never terminates: from the first step onward the run stays in
the while loop and never reaches a returned state. -/
theorem opposite_diverges_of_false {α : Type} (wf : α → α → PyVal) (f : α)
    (h : wf f f = PyVal.bool false) :
    (∀ n, oppRun wf f (n + 1) = OppState.loop) ∧
      ∀ n v, oppRun wf f n ≠ OppState.done v := by
  have htr : truthy (wf f f) = false := by rw [h]; rfl
  exact ⟨oppRun_false_loop wf f htr, oppRun_no_done_of_false wf f htr⟩

/-- Witness for C3 at a concrete always-False predictor. -/
theorem opposite_diverges_of_false_witness :
    oppRun (fun _ _ : Unit => PyVal.bool false) () 5 = OppState.loop :=
  (opposite_diverges_of_false (fun _ _ => PyVal.bool false) () rfl).1 4

/-- Claim C4: the first step of `opposite f` invokes the predictor exactly
once, before any other event, passing f as both arguments; the whole trace
records no other invocation; and everything after the first step is
determined by the single result of that call alone. -/
theorem opposite_single_call {α : Type} (wf wf' : α → α → PyVal) (f f' : α)
    (n : Nat) (hn : 1 ≤ n) (h : wf f f = wf' f' f') :
    (oppStep wf (OppState.start f)).2 = [Event.call f f (wf f f)] ∧
      callsOf (oppTrace wf f n) = [(f, f)] ∧
      oppRun wf f n = oppRun wf' f' n := by
  cases n with
  | zero => exact absurd hn (by decide)
  | succ m =>
      refine ⟨?_, ?_, oppRun_det wf wf' f f' h m⟩
      · simp only [oppStep]
        split <;> rfl
      · cases htr : truthy (wf f f) with
        | false =>
            rw [oppTrace_false wf f htr m]
            simp [callsOf, callsOf_replicate_line]
        | true =>
            rw [oppTrace_true wf f htr m]
            rfl

/-- Witness for C4 at a concrete predictor and step count. -/
theorem opposite_single_call_witness :
    (oppStep (fun _ _ : Unit => PyVal.none) (OppState.start ())).2 =
        [Event.call () () PyVal.none] ∧
      callsOf (oppTrace (fun _ _ : Unit => PyVal.none) () 3) = [((), ())] ∧
      oppRun (fun _ _ : Unit => PyVal.none) () 3 =
        oppRun (fun _ _ : Unit => PyVal.none) () 3 :=
  opposite_single_call (fun _ _ => PyVal.none) (fun _ _ => PyVal.none) () () 3
    (by decide) rfl

/-- Claim C5: the shipped predictor body is a lone pass statement: every
call returns None and never a boolean, despite the declared bool return
annotation. -/
theorem will_freeze_returns_none {α β : Type} (f : α) (x : β) :
    will_freeze f x = PyVal.none ∧ ∀ b : Bool, will_freeze f x ≠ PyVal.bool b :=
  ⟨rfl, fun _ hb => PyVal.noConfusion hb⟩

/-- Witness for C5 at concrete arguments. -/
theorem will_freeze_returns_none_witness :
    will_freeze (0 : Nat) (0 : Nat) = PyVal.none ∧
      ∀ b : Bool, will_freeze (0 : Nat) (0 : Nat) ≠ PyVal.bool b :=
  will_freeze_returns_none 0 0

/-- Counterexample to claim C6 as stated: running `opposite` under the
shipped stub does interact with an external resource, namely it writes the
loop line to stdout; the print event appears in the trace after two steps. -/
theorem opposite_performs_output :
    Event.line loopMsg ∈ oppTrace (will_freeze : Unit → Unit → PyVal) () 2 := by
  rw [oppTrace_false (will_freeze : Unit → Unit → PyVal) () rfl 1]
  simp

/-- Claim C6 as amended: `will_freeze` touches nothing at all, and the only
external effects of `opposite f` are the single predictor invocation and
writes of the fixed loop line to stdout; no other reads or writes occur, and
no state outside the control state survives between steps. -/
theorem opposite_effects_only_call_and_output {α : Type} (wf : α → α → PyVal)
    (f : α) (n : Nat) (e : Event α) (he : e ∈ oppTrace wf f n) :
    e = Event.call f f (wf f f) ∨ e = Event.line loopMsg := by
  cases n with
  | zero => simp [oppTrace] at he
  | succ m =>
      cases htr : truthy (wf f f) with
      | false =>
          rw [oppTrace_false wf f htr m] at he
          rcases List.mem_cons.mp he with h1 | h1
          · exact Or.inl h1
          · exact Or.inr (List.eq_of_mem_replicate h1)
      | true =>
          rw [oppTrace_true wf f htr m] at he
          simp at he
          exact Or.inl he

/-- Witness for the amended C6 at a concrete event in a concrete trace. -/
theorem opposite_effects_only_call_and_output_witness :
    (Event.line loopMsg : Event Unit) = Event.call () () PyVal.none ∨
      (Event.line loopMsg : Event Unit) = Event.line loopMsg :=
  opposite_effects_only_call_and_output (fun _ _ : Unit => PyVal.none) () 2
    (Event.line loopMsg)
    (by rw [oppTrace_false (fun _ _ : Unit => PyVal.none) () rfl 1]; simp)

/-- Claim C7: no run raises, catches, retries or reports an error: the
predictor always returns a value, and every run of `opposite` either reaches
a returned state or never does (it diverges). -/
theorem no_error_conditions {α : Type} (wf : α → α → PyVal) (f : α) (x : α) :
    will_freeze f x = PyVal.none ∧
      (oppHalts wf f ∨ ∀ n v, oppRun wf f n ≠ OppState.done v) := by
  refine ⟨rfl, ?_⟩
  cases htr : truthy (wf f f) with
  | true => exact Or.inl ((oppHalts_iff wf f).mpr htr)
  | false => exact Or.inr (oppRun_no_done_of_false wf f htr)

/-- Witness for C7 at a concrete predictor and argument. -/
theorem no_error_conditions_witness :
    will_freeze () () = PyVal.none ∧
      (oppHalts (fun _ _ : Unit => PyVal.none) () ∨
        ∀ n v, oppRun (fun _ _ : Unit => PyVal.none) () n ≠ OppState.done v) :=
  no_error_conditions (fun _ _ => PyVal.none) () ()

/-- Claim C8: under the stub as shipped (every call returns None, which is
falsy), `opposite f` never reaches a returned state for any f: from the
first step onward it is inside the loop, having printed the loop line once
per completed loop iteration. -/
theorem opposite_diverges_as_shipped {α : Type} (f : α) (n : Nat) :
    oppRun will_freeze f (n + 1) = OppState.loop ∧
      oppTrace will_freeze f (n + 1) =
        Event.call f f PyVal.none :: List.replicate n (Event.line loopMsg) ∧
      ∀ m v, oppRun will_freeze f m ≠ OppState.done v := by
  have htr : truthy ((will_freeze : α → α → PyVal) f f) = false := rfl
  exact ⟨oppRun_false_loop will_freeze f htr n,
    oppTrace_false will_freeze f htr n,
    oppRun_no_done_of_false will_freeze f htr⟩

/-- Witness for C8 at a concrete argument and step count. -/
theorem opposite_diverges_as_shipped_witness :
    oppRun will_freeze () 3 = OppState.loop ∧
      oppTrace will_freeze () 3 =
        Event.call () () PyVal.none :: List.replicate 2 (Event.line loopMsg) ∧
      ∀ m v, oppRun will_freeze () m ≠ OppState.done v :=
  opposite_diverges_as_shipped () 2

/-- Claim C9: whenever `opposite` terminates, the returned value is exactly
False; no terminating run produces any other value. -/
theorem opposite_returns_false {α : Type} (wf : α → α → PyVal) (f : α)
    (n : Nat) (v : PyVal) (h : oppRun wf f n = OppState.done v) :
    v = PyVal.bool false := by
  cases n with
  | zero => exact OppState.noConfusion h
  | succ m =>
      rcases oppRun_succ_cases wf f m with hk | hk
      · rw [hk] at h
        exact OppState.noConfusion h
      · rw [hk] at h
        injection h with h1
        exact h1.symm

/-- Witness for C9 at a concrete terminating run. -/
theorem opposite_returns_false_witness :
    oppRun (fun _ _ : Unit => PyVal.bool true) () 1 = OppState.done (PyVal.bool false) ∧
      PyVal.bool false = PyVal.bool false :=
  ⟨rfl, opposite_returns_false (fun _ _ => PyVal.bool true) () 1 (PyVal.bool false) rfl⟩

/-- Claim C10: the shipped predictor terminates on all arguments with the
value None, and its result does not depend on either argument in any way, so
in particular it never invokes or evaluates the function it is given. -/
theorem will_freeze_total_and_ignores_arguments {α β γ δ : Type} (f : α) (x : β)
    (g : γ) (y : δ) :
    will_freeze f x = PyVal.none ∧ will_freeze f x = will_freeze g y :=
  ⟨rfl, rfl⟩
